import Mathlib

/-!
Verification of the Discord-Voice realtime audio relay engine.

This file gives a shallow embedding, in Lean 4, of the core state and
event handlers of the repository (the voice-activity gate, the playback
pipelines, the utterance assemblers, and the ElevenLabs link supervisor),
and proves or refutes the frozen specification claims about them.

PCM audio is modelled at the granularity of 16-bit signed samples: a JS
Buffer of 2*n bytes read pairwise by readInt16LE corresponds here to a
List of n integers.  Machine timestamps (Date.now) are integers in
milliseconds.  Thresholds are rationals (the JS side parses them with
Number).
-/

namespace DiscordVoice

/-! ## Voice-activity gate (server.js, listenToUser)

Source: function rms (server.js lines 210-218) and the
downsampler data handler (server.js lines 252-277).
-/

/-- Sum of squared samples: the loop
sum += s * s over the 16-bit samples of the frame. -/
def sumSq (frame : List ℤ) : ℤ :=
  (frame.map (fun s => s * s)).sum

/-- The guarded divisor of the rms computation:
buf.length / 2 || 1 in the source, i.e. the number of samples,
replaced by 1 when the frame is empty. -/
def rmsDivisor (n : ℕ) : ℕ :=
  if n = 0 then 1 else n

/-- The square of the frame energy, Math.sqrt(sum / (buf.length / 2 || 1))
squared: mean of the squared samples with the guarded divisor.  Working with
the square avoids the irrational square root while determining the same
comparisons against a nonnegative threshold. -/
def rmsSq (frame : List ℤ) : ℚ :=
  (sumSq frame : ℚ) / (rmsDivisor frame.length : ℚ)

/-- The gate comparison level >= VAD_THRESH, i.e. sqrt (rmsSq frame) >= t.
For t <= 0 this always holds (rms is nonnegative); for t > 0 it is
equivalent to t * t <= rmsSq frame, here cross-multiplied into integer
arithmetic over the numerator and denominator of t so that the comparison
evaluates by kernel reduction.  The lemma levelGE_eq_true_iff below shows
it agrees with the rational form. -/
def levelGE (frame : List ℤ) (t : ℚ) : Bool :=
  decide (t.num ≤ 0)
    || decide (t.num * t.num * (rmsDivisor frame.length : ℤ)
                 ≤ sumSq frame * (t.den : ℤ) * (t.den : ℤ))

/-- The integer comparison of levelGE coincides with the rational
statement sqrt (rmsSq frame) >= t, expressed without the square root. -/
theorem levelGE_eq_true_iff (frame : List ℤ) (t : ℚ) :
    levelGE frame t = true ↔ (t ≤ 0 ∨ t * t ≤ rmsSq frame) := by
  have hd0 : 0 < rmsDivisor frame.length := by
    unfold rmsDivisor
    split <;> omega
  have hd : (0 : ℚ) < (rmsDivisor frame.length : ℚ) := by exact_mod_cast hd0
  have hden : (0 : ℚ) < (t.den : ℚ) := by exact_mod_cast t.den_pos
  have htt : t * t = ((t.num : ℚ) * t.num) / ((t.den : ℚ) * t.den) := by
    conv_lhs => rw [← Rat.num_div_den t]
    rw [div_mul_div_comm]
  unfold levelGE rmsSq
  rw [Bool.or_eq_true, decide_eq_true_eq, decide_eq_true_eq]
  apply or_congr
  · exact Rat.num_nonpos
  · rw [le_div_iff₀ hd, htt, div_mul_eq_mul_div, div_le_iff₀ (by positivity)]
    rw [show (sumSq frame : ℚ) * ((t.den : ℚ) * t.den)
          = ((sumSq frame * (t.den : ℤ) * (t.den : ℤ) : ℤ) : ℚ) from by push_cast; ring]
    rw [show (t.num : ℚ) * t.num * ((rmsDivisor frame.length : ℕ) : ℚ)
          = ((t.num * t.num * (rmsDivisor frame.length : ℤ) : ℤ) : ℚ) from by push_cast; ring]
    exact_mod_cast Iff.rfl

/-- Gate configuration: VAD_THRESH, VAD_HANG (ms) and chunkBytes expressed
in samples (chunkBytes / 2; chunkBytes = clamp(CHUNK_MS, 10, 60) * 32 in the
source, hence always positive and even). -/
structure GateCfg where
  thresh : ℚ
  hang : ℤ
  chunkSz : ℕ
deriving DecidableEq

/-- The mutable state of one capture pipeline: vadTalking, vadLastVoiceAt
and sendBuffer. -/
structure GateState where
  talking : Bool
  lastVoiceAt : ℤ
  buf : List ℤ
deriving DecidableEq

/-- Initial gate state: vadTalking = false, vadLastVoiceAt = 0, empty
sendBuffer. -/
def initGate : GateState := ⟨false, 0, []⟩

/-- Fuel-driven body of the chunking while loop; every iteration with a
positive chunk size strictly shrinks the buffer, so buf.length units of
fuel always suffice. -/
def drainAux : ℕ → ℕ → List ℤ → List (List ℤ) × List ℤ
  | 0, _, buf => ([], buf)
  | fuel + 1, csz, buf =>
    if 0 < csz ∧ csz ≤ buf.length then
      let r := drainAux fuel csz (buf.drop csz)
      (buf.take csz :: r.1, r.2)
    else
      ([], buf)

/-- The while loop
while (vadTalking and sendBuffer.length >= chunkBytes) slice/send:
returns the emitted chunks in order and the remaining buffer.  Guarded on
0 < csz so that the iteration terminates (in the source chunkBytes is at
least 320). -/
def drain (csz : ℕ) (buf : List ℤ) : List (List ℤ) × List ℤ :=
  drainAux buf.length csz buf

theorem drainAux_nil (fuel csz : ℕ) : drainAux fuel csz [] = ([], []) := by
  cases fuel with
  | zero => rfl
  | succ n =>
    have h : ¬ (0 < csz ∧ csz ≤ ([] : List ℤ).length) := by
      rintro ⟨h1, h2⟩
      simp at h2
      omega
    simp only [drainAux]
    rw [if_neg h]

theorem drainAux_irrel (csz : ℕ) (fuel1 : ℕ) :
    ∀ (fuel2 : ℕ) (buf : List ℤ), buf.length ≤ fuel1 → buf.length ≤ fuel2 →
      drainAux fuel1 csz buf = drainAux fuel2 csz buf := by
  induction fuel1 with
  | zero =>
    intro fuel2 buf h1 _h2
    have : buf = [] := List.length_eq_zero.1 (Nat.le_zero.1 h1)
    subst this
    rw [drainAux_nil, drainAux_nil]
  | succ n ih =>
    intro fuel2 buf h1 h2
    cases fuel2 with
    | zero =>
      have : buf = [] := List.length_eq_zero.1 (Nat.le_zero.1 h2)
      subst this
      rw [drainAux_nil, drainAux_nil]
    | succ m =>
      by_cases h : 0 < csz ∧ csz ≤ buf.length
      · simp only [drainAux, if_pos h]
        rw [ih m (buf.drop csz) (by simp; omega) (by simp; omega)]
      · simp only [drainAux, if_neg h]

/-- The while-loop unfolding law of drain. -/
theorem drain_eq (csz : ℕ) (buf : List ℤ) :
    drain csz buf
      = if 0 < csz ∧ csz ≤ buf.length then
          ((buf.take csz) :: (drain csz (buf.drop csz)).1,
            (drain csz (buf.drop csz)).2)
        else ([], buf) := by
  by_cases h : 0 < csz ∧ csz ≤ buf.length
  · rw [if_pos h]
    unfold drain
    obtain ⟨n, hn⟩ : ∃ n, buf.length = n + 1 := ⟨buf.length - 1, by omega⟩
    rw [hn]
    simp only [drainAux]
    rw [if_pos h]
    rw [drainAux_irrel csz n ((buf.drop csz).length) (buf.drop csz)
      (by simp only [List.length_drop]; omega) (Nat.le_refl _)]
  · rw [if_neg h]
    unfold drain
    cases hn : buf.length with
    | zero => rfl
    | succ n =>
      simp only [drainAux]
      rw [if_neg h]

/-- Result of one invocation of the downsampler data handler: the new gate
state, the chunks passed to sendUserAudioChunk in order, and whether
sendUserAudioEnd was called. -/
structure GateStep where
  st : GateState
  out : List (List ℤ)
  ended : Bool
deriving DecidableEq

/-- One invocation of the downsampler data handler
(server.js lines 252-277) on a frame at time now:
1. level >= VAD_THRESH: set talking, record now, append the frame;
   else if talking and within the hangover window: append the frame;
   else: drop the frame;
2. while talking and the buffer holds a full chunk, emit it;
3. if talking and the hangover has elapsed, flush the partial tail chunk,
   clear the buffer, leave Talking and signal end of utterance. -/
def feed (cfg : GateCfg) (s : GateState) (frame : List ℤ) (now : ℤ) : GateStep :=
  let s1 : GateState :=
    if levelGE frame cfg.thresh = true then
      ⟨true, now, s.buf ++ frame⟩
    else if s.talking = true ∧ now - s.lastVoiceAt < cfg.hang then
      ⟨s.talking, s.lastVoiceAt, s.buf ++ frame⟩
    else s
  let dr := if s1.talking = true then drain cfg.chunkSz s1.buf else ([], s1.buf)
  if s1.talking = true ∧ cfg.hang ≤ now - s1.lastVoiceAt then
    ⟨⟨false, s1.lastVoiceAt, []⟩, dr.1 ++ (if dr.2 = [] then [] else [dr.2]), true⟩
  else
    ⟨⟨s1.talking, s1.lastVoiceAt, dr.2⟩, dr.1, false⟩

/-- Result of feeding a whole trace of (frame, timestamp) pairs. -/
structure GateRun where
  st : GateState
  out : List (List ℤ)
  ends : ℕ
deriving DecidableEq

/-- Feed a trace of (frame, timestamp) pairs through the gate, collecting
all emitted chunks and counting end-of-utterance signals. -/
def runGate (cfg : GateCfg) (s : GateState) : List (List ℤ × ℤ) → GateRun
  | [] => ⟨s, [], 0⟩
  | (f, t) :: rest =>
    let step := feed cfg s f t
    let r := runGate cfg step.st rest
    ⟨r.st, step.out ++ r.out, (if step.ended then 1 else 0) + r.ends⟩

theorem drain_flatten (csz : ℕ) (buf : List ℤ) :
    ((drain csz buf).1).flatten ++ (drain csz buf).2 = buf := by
  rw [drain_eq]
  by_cases h : 0 < csz ∧ csz ≤ buf.length
  · rw [if_pos h]
    have ih := drain_flatten csz (buf.drop csz)
    simp only [List.flatten_cons, List.append_assoc, ih]
    exact List.take_append_drop csz buf
  · rw [if_neg h]
    simp
termination_by buf.length
decreasing_by
  simp only [List.length_drop]
  omega

theorem runGate_append (cfg : GateCfg) (s : GateState) (l1 l2 : List (List ℤ × ℤ)) :
    runGate cfg s (l1 ++ l2)
      = ⟨(runGate cfg (runGate cfg s l1).st l2).st,
         (runGate cfg s l1).out ++ (runGate cfg (runGate cfg s l1).st l2).out,
         (runGate cfg s l1).ends + (runGate cfg (runGate cfg s l1).st l2).ends⟩ := by
  induction l1 generalizing s with
  | nil => simp [runGate]
  | cons p rest ih =>
    obtain ⟨f, t⟩ := p
    simp only [List.cons_append, runGate, List.append_eq]
    rw [ih]
    simp [List.append_assoc, Nat.add_assoc]

/-- Feeding a frame whose rms level is at least the threshold:
comparing with the source branch level >= VAD_THRESH. -/
theorem feed_ge (cfg : GateCfg) (hhang : 0 < cfg.hang) (s : GateState)
    (frame : List ℤ) (now : ℤ) (hq : levelGE frame cfg.thresh = true) :
    feed cfg s frame now
      = ⟨⟨true, now, (drain cfg.chunkSz (s.buf ++ frame)).2⟩,
         (drain cfg.chunkSz (s.buf ++ frame)).1, false⟩ := by
  simp only [feed, hq]
  simp
  omega

/-- Feeding a below-threshold frame while Talking within the hangover
window: the frame is buffered and no end signal fires. -/
theorem feed_below_within (cfg : GateCfg) (s : GateState)
    (frame : List ℤ) (now : ℤ) (hb : levelGE frame cfg.thresh = false)
    (ht : s.talking = true) (hw : now - s.lastVoiceAt < cfg.hang) :
    feed cfg s frame now
      = ⟨⟨true, s.lastVoiceAt, (drain cfg.chunkSz (s.buf ++ frame)).2⟩,
         (drain cfg.chunkSz (s.buf ++ frame)).1, false⟩ := by
  simp only [feed, hb, ht]
  simp [hw]

/-- Feeding a below-threshold frame while Talking after the hangover has
elapsed: the frame is dropped, full chunks and the partial tail are
flushed, and the single end-of-utterance signal fires. -/
theorem feed_below_expired (cfg : GateCfg) (s : GateState)
    (frame : List ℤ) (now : ℤ) (hb : levelGE frame cfg.thresh = false)
    (ht : s.talking = true) (hw : cfg.hang ≤ now - s.lastVoiceAt) :
    feed cfg s frame now
      = ⟨⟨false, s.lastVoiceAt, []⟩,
         (drain cfg.chunkSz s.buf).1
           ++ (if (drain cfg.chunkSz s.buf).2 = [] then []
               else [(drain cfg.chunkSz s.buf).2]),
         true⟩ := by
  have hw' : ¬ (now - s.lastVoiceAt < cfg.hang) := by omega
  simp only [feed, hb, Bool.false_eq_true, if_false, hw', and_false, ht, and_true]
  simp [hw]

/-- Feeding a below-threshold frame while Silent: the handler changes
nothing, emits nothing and signals nothing — the frame is dropped. -/
theorem feed_below_silent (cfg : GateCfg) (s : GateState)
    (frame : List ℤ) (now : ℤ) (hb : levelGE frame cfg.thresh = false)
    (ht : s.talking = false) :
    feed cfg s frame now = ⟨s, [], false⟩ := by
  obtain ⟨tk, lv, bf⟩ := s
  simp only at ht
  subst ht
  simp [feed, hb]

/-- While Silent, a run of below-threshold frames is ignored entirely. -/
theorem runGate_silent (cfg : GateCfg) (s : GateState)
    (ht : s.talking = false) (ss : List (List ℤ × ℤ))
    (hb : ∀ p ∈ ss, levelGE p.1 cfg.thresh = false) :
    runGate cfg s ss = ⟨s, [], 0⟩ := by
  induction ss with
  | nil => rfl
  | cons p rest ih =>
    obtain ⟨f, t⟩ := p
    have h1 := hb (f, t) (by simp)
    simp only [runGate, feed_below_silent cfg s f t h1 ht]
    rw [ih (fun q hq => hb q (by simp [hq]))]
    simp

/-- Running the gate over a nonempty run of qualifying frames: the gate
ends Talking with lastVoiceAt the time of the last frame, no end signal
fires, and the emitted chunks followed by the residual buffer are exactly
the prior buffer followed by the frames in arrival order. -/
theorem runGate_qualifying (cfg : GateCfg) (hhang : 0 < cfg.hang)
    (s : GateState) (qs : List (List ℤ × ℤ)) (ql : List ℤ × ℤ)
    (hql : qs.getLast? = some ql)
    (hq : ∀ p ∈ qs, levelGE p.1 cfg.thresh = true) :
    (runGate cfg s qs).st.talking = true
    ∧ (runGate cfg s qs).st.lastVoiceAt = ql.2
    ∧ (runGate cfg s qs).ends = 0
    ∧ (runGate cfg s qs).out.flatten ++ (runGate cfg s qs).st.buf
        = s.buf ++ (qs.map Prod.fst).flatten := by
  induction qs generalizing s with
  | nil => simp at hql
  | cons p rest ih =>
    obtain ⟨f, t⟩ := p
    have hf := hq (f, t) (by simp)
    simp only [runGate, feed_ge cfg hhang s f t hf]
    cases rest with
    | nil =>
      have hql' : ql = (f, t) := by
        simp only [List.getLast?_singleton, Option.some.injEq] at hql
        exact hql.symm
      subst hql'
      simp [runGate, drain_flatten]
    | cons p2 rest2 =>
      rw [List.getLast?_cons_cons] at hql
      have ih' := ih ⟨true, t, (drain cfg.chunkSz (s.buf ++ f)).2⟩ hql
        (fun q hq' => hq q (by simp [hq']))
      refine ⟨ih'.1, ih'.2.1, by simpa using ih'.2.2.1, ?_⟩
      have hjoin := ih'.2.2.2
      simp only [List.map_cons, List.flatten_cons, List.flatten_append]
      calc ((drain cfg.chunkSz (s.buf ++ f)).1.flatten
              ++ (runGate cfg ⟨true, t, (drain cfg.chunkSz (s.buf ++ f)).2⟩ (p2 :: rest2)).out.flatten)
            ++ (runGate cfg ⟨true, t, (drain cfg.chunkSz (s.buf ++ f)).2⟩ (p2 :: rest2)).st.buf
          = (drain cfg.chunkSz (s.buf ++ f)).1.flatten
              ++ ((runGate cfg ⟨true, t, (drain cfg.chunkSz (s.buf ++ f)).2⟩ (p2 :: rest2)).out.flatten
                  ++ (runGate cfg ⟨true, t, (drain cfg.chunkSz (s.buf ++ f)).2⟩ (p2 :: rest2)).st.buf) := by
            simp [List.append_assoc]
        _ = (drain cfg.chunkSz (s.buf ++ f)).1.flatten
              ++ ((drain cfg.chunkSz (s.buf ++ f)).2 ++ ((p2 :: rest2).map Prod.fst).flatten) := by
            rw [hjoin]
        _ = s.buf ++ (f ++ ((p2 :: rest2).map Prod.fst).flatten) := by
            rw [← List.append_assoc, drain_flatten, List.append_assoc]

/-- Unfolding lemma: one handler invocation followed by the rest of the
trace. -/
theorem runGate_cons (cfg : GateCfg) (s : GateState) (f : List ℤ) (t : ℤ)
    (rest : List (List ℤ × ℤ)) :
    runGate cfg s ((f, t) :: rest)
      = ⟨(runGate cfg (feed cfg s f t).st rest).st,
         (feed cfg s f t).out ++ (runGate cfg (feed cfg s f t).st rest).out,
         (if (feed cfg s f t).ended then 1 else 0)
           + (runGate cfg (feed cfg s f t).st rest).ends⟩ := rfl

/-- Running the gate, while Talking with last qualifying time L, over
below-threshold frames one of which (the last) falls at or after L + hang:
exactly one end-of-utterance signal fires, the final state is Silent with
an empty buffer, and the emitted bytes are the prior buffer followed by
exactly the frames that fell inside the hangover window before the signal. -/
theorem runGate_silence (cfg : GateCfg) (s : GateState)
    (ht : s.talking = true) (ss : List (List ℤ × ℤ))
    (hb : ∀ p ∈ ss, levelGE p.1 cfg.thresh = false)
    (hlast : ∃ p, ss.getLast? = some p ∧ s.lastVoiceAt + cfg.hang ≤ p.2) :
    (runGate cfg s ss).ends = 1
    ∧ (runGate cfg s ss).st.talking = false
    ∧ (runGate cfg s ss).st.buf = []
    ∧ (runGate cfg s ss).out.flatten
        = s.buf
          ++ ((ss.takeWhile (fun p => decide (p.2 - s.lastVoiceAt < cfg.hang))).map
                Prod.fst).flatten := by
  induction ss generalizing s with
  | nil => simp at hlast
  | cons p rest ih =>
    obtain ⟨f, t⟩ := p
    have hf := hb (f, t) (by simp)
    by_cases hwin : t - s.lastVoiceAt < cfg.hang
    · -- frame inside the hangover window: buffered, no signal yet
      have hrest_ne : rest ≠ [] := by
        intro hre
        obtain ⟨q, hq1, hq2⟩ := hlast
        subst hre
        simp only [List.getLast?_singleton, Option.some.injEq] at hq1
        subst hq1
        omega
      obtain ⟨p2, rest2, hre⟩ := List.exists_cons_of_ne_nil hrest_ne
      subst hre
      have hlast' : ∃ p, (p2 :: rest2).getLast? = some p
          ∧ s.lastVoiceAt + cfg.hang ≤ p.2 := by
        obtain ⟨q, hq1, hq2⟩ := hlast
        rw [List.getLast?_cons_cons] at hq1
        exact ⟨q, hq1, hq2⟩
      rw [runGate_cons, feed_below_within cfg s f t hf ht hwin]
      dsimp only
      have ih' := ih ⟨true, s.lastVoiceAt, (drain cfg.chunkSz (s.buf ++ f)).2⟩ rfl
        (fun q hq' => hb q (by simp [hq'])) hlast'
      obtain ⟨ih1, ih2, ih3, ih4⟩ := ih'
      refine ⟨by simpa using ih1, ih2, ih3, ?_⟩
      have htw : List.takeWhile (fun p => decide (p.2 - s.lastVoiceAt < cfg.hang))
          ((f, t) :: p2 :: rest2)
          = (f, t) :: List.takeWhile (fun p => decide (p.2 - s.lastVoiceAt < cfg.hang))
              (p2 :: rest2) := by
        simp [List.takeWhile_cons, hwin]
      rw [htw]
      simp only [List.flatten_append, List.map_cons, List.flatten_cons]
      rw [ih4]
      dsimp only
      rw [← List.append_assoc, ← List.append_assoc, drain_flatten]
    · -- hangover expired: the frame is dropped, the tail flushes, end fires
      have hw : cfg.hang ≤ t - s.lastVoiceAt := by omega
      rw [runGate_cons, feed_below_expired cfg s f t hf ht hw]
      dsimp only
      rw [runGate_silent cfg ⟨false, s.lastVoiceAt, []⟩ rfl rest
        (fun q hq' => hb q (by simp [hq']))]
      have htw : List.takeWhile (fun p => decide (p.2 - s.lastVoiceAt < cfg.hang))
          ((f, t) :: rest) = [] := by
        simp [List.takeWhile_cons, hwin]
      rw [htw]
      refine ⟨rfl, rfl, rfl, ?_⟩
      dsimp only
      by_cases hdr : (drain cfg.chunkSz s.buf).2 = []
      · have h0 := drain_flatten cfg.chunkSz s.buf
        rw [hdr, List.append_nil] at h0
        simp [hdr, h0]
      · have h0 := drain_flatten cfg.chunkSz s.buf
        simp only [hdr, if_false]
        simpa using h0

/-- Claim C1 (gate single-flush): feeding a talking run (every frame at
or above threshold) followed by below-threshold frames whose last one
falls at or after the hangover deadline produces exactly one
end-of-utterance signal, and the concatenation of every chunk handed to
sendUserAudioChunk is exactly the talking-run bytes followed by the
below-threshold frames buffered inside the hangover window, in arrival
order. -/
theorem gate_single_flush (cfg : GateCfg) (hhang : 0 < cfg.hang)
    (qs ss : List (List ℤ × ℤ)) (ql : List ℤ × ℤ)
    (hql : qs.getLast? = some ql)
    (hq : ∀ p ∈ qs, levelGE p.1 cfg.thresh = true)
    (hb : ∀ p ∈ ss, levelGE p.1 cfg.thresh = false)
    (hlast : ∃ p, ss.getLast? = some p ∧ ql.2 + cfg.hang ≤ p.2) :
    (runGate cfg initGate (qs ++ ss)).ends = 1
    ∧ (runGate cfg initGate (qs ++ ss)).out.flatten
        = (qs.map Prod.fst).flatten
          ++ ((ss.takeWhile (fun p => decide (p.2 - ql.2 < cfg.hang))).map
                Prod.fst).flatten := by
  have hqrun := runGate_qualifying cfg hhang initGate qs ql hql hq
  have hsrun := runGate_silence cfg (runGate cfg initGate qs).st hqrun.1 ss hb
    (by rw [hqrun.2.1]; exact hlast)
  rw [runGate_append]
  constructor
  · simp [hqrun.2.2.1, hsrun.1]
  · simp only [List.flatten_append]
    rw [hsrun.2.2.2, hqrun.2.1]
    rw [← List.append_assoc]
    rw [hqrun.2.2.2]
    simp [initGate]

/-- Witness for gate_single_flush: a concrete run with one qualifying
frame followed by one in-hangover frame and one hangover-expiring frame. -/
theorem gate_single_flush_witness :
    (0 : ℤ) < 2
    ∧ [(([2, 2] : List ℤ), (0 : ℤ))].getLast? = some ([2, 2], 0)
    ∧ (∀ p ∈ [(([2, 2] : List ℤ), (0 : ℤ))], levelGE p.1 1 = true)
    ∧ (∀ p ∈ [(([0, 0] : List ℤ), (1 : ℤ)), (([0, 0] : List ℤ), (5 : ℤ))],
        levelGE p.1 1 = false)
    ∧ (∃ p, [(([0, 0] : List ℤ), (1 : ℤ)), (([0, 0] : List ℤ), (5 : ℤ))].getLast?
          = some p ∧ (0 : ℤ) + 2 ≤ p.2)
    ∧ ((runGate ⟨1, 2, 2⟩ initGate
          ([(([2, 2] : List ℤ), (0 : ℤ))]
            ++ [(([0, 0] : List ℤ), (1 : ℤ)), (([0, 0] : List ℤ), (5 : ℤ))])).ends = 1
        ∧ (runGate ⟨1, 2, 2⟩ initGate
            ([(([2, 2] : List ℤ), (0 : ℤ))]
              ++ [(([0, 0] : List ℤ), (1 : ℤ)), (([0, 0] : List ℤ), (5 : ℤ))])).out.flatten
          = ([(([2, 2] : List ℤ), (0 : ℤ))].map Prod.fst).flatten
            ++ (([(([0, 0] : List ℤ), (1 : ℤ)), (([0, 0] : List ℤ), (5 : ℤ))].takeWhile
                  (fun p => decide (p.2 - (0 : ℤ) < 2))).map Prod.fst).flatten) :=
  ⟨by decide, rfl, by decide, by decide, ⟨([0, 0], 5), rfl, by decide⟩,
    gate_single_flush ⟨1, 2, 2⟩ (by decide)
      [(([2, 2] : List ℤ), (0 : ℤ))]
      [(([0, 0] : List ℤ), (1 : ℤ)), (([0, 0] : List ℤ), (5 : ℤ))]
      ([2, 2], 0) rfl (by decide) (by decide) ⟨([0, 0], 5), rfl, by decide⟩⟩

/-- Claim C9: a below-threshold frame arriving while Silent changes
nothing at all (no bytes buffered, no chunk emitted, no signal), and a
frame whose rms level exactly equals a nonnegative threshold qualifies
as speech, because the source comparison is level >= VAD_THRESH. -/
theorem gate_silent_drop_and_threshold_inclusive :
    (∀ (cfg : GateCfg) (s : GateState) (frame : List ℤ) (now : ℤ),
        s.talking = false → levelGE frame cfg.thresh = false →
        feed cfg s frame now = ⟨s, [], false⟩)
    ∧ (∀ (frame : List ℤ) (t : ℚ), 0 ≤ t → rmsSq frame = t * t →
        levelGE frame t = true) := by
  constructor
  · intro cfg s frame now ht hb
    exact feed_below_silent cfg s frame now hb ht
  · intro frame t _h0 hsq
    rw [levelGE_eq_true_iff]
    right
    rw [hsq]

/-- Witness for gate_silent_drop_and_threshold_inclusive: an all-zero
frame below a threshold of 800 is dropped while Silent, and a one-sample
frame of value 5 exactly meets a threshold of 5. -/
theorem gate_silent_drop_witness :
    (initGate.talking = false
      ∧ levelGE [0, 0] 800 = false
      ∧ feed ⟨800, 300, 320⟩ initGate [0, 0] 5 = ⟨initGate, [], false⟩)
    ∧ ((0 : ℚ) ≤ 5
      ∧ rmsSq [5] = 5 * 5
      ∧ levelGE [5] 5 = true) :=
  ⟨⟨rfl, by decide,
      gate_silent_drop_and_threshold_inclusive.1 ⟨800, 300, 320⟩ initGate [0, 0] 5 rfl
        (by decide)⟩,
   ⟨by decide, by norm_num [rmsSq, sumSq, rmsDivisor],
      gate_silent_drop_and_threshold_inclusive.2 [5] 5 (by decide)
        (by norm_num [rmsSq, sumSq, rmsDivisor])⟩⟩

/-- Claim C10: the rms computation divides by buf.length / 2 || 1, so an
empty frame has level 0 and can never qualify against a positive
threshold. -/
theorem rms_empty_guarded :
    rmsSq [] = 0 ∧ (∀ t : ℚ, 0 < t → levelGE [] t = false) := by
  constructor
  · simp [rmsSq, sumSq, rmsDivisor]
  · intro t ht
    have h1 : rmsSq [] = 0 := by simp [rmsSq, sumSq, rmsDivisor]
    rw [Bool.eq_false_iff]
    intro htrue
    rcases (levelGE_eq_true_iff [] t).1 htrue with h | h
    · linarith
    · rw [h1] at h
      nlinarith

/-- Witness for rms_empty_guarded at the default threshold 800. -/
theorem rms_empty_guarded_witness :
    rmsSq [] = 0 ∧ ((0 : ℚ) < 800 ∧ levelGE [] 800 = false) :=
  ⟨rms_empty_guarded.1, by decide, rms_empty_guarded.2 800 (by decide)⟩

/-! ## Scenario B (claim C5): 20 ms chunks, 100 ms of speech then 400 ms
of silence, hangover 300 ms.

With CHUNK_MS = 20 the chunk is 320 samples; the five loud 20 ms frames
arrive at t = 0..80 and the twenty silent 20 ms frames at t = 100..480.
-/

/-- A 20 ms frame at 16 kHz whose samples all read 1000 (rms 1000, above
the default threshold 800). -/
def loudFrame : List ℤ := List.replicate 320 1000

/-- A 20 ms all-zero frame (rms 0). -/
def silentFrame : List ℤ := List.replicate 320 0

/-- The configuration of Scenario B: VAD_THRESHOLD 800, VAD_HANG_MS 300,
chunk of 20 ms = 320 samples. -/
def cfgB : GateCfg := ⟨800, 300, 320⟩

/-- Scenario B input: 100 ms of loud frames then 400 ms of silent
frames, one frame every 20 ms. -/
def scenarioBTrace : List (List ℤ × ℤ) :=
  (List.range 5).map (fun i => (loudFrame, 20 * (i : ℤ)))
    ++ (List.range 20).map (fun i => (silentFrame, 100 + 20 * (i : ℤ)))

set_option maxRecDepth 100000 in
/-- Counterexample to claim C5: Scenario B does not produce 5 chunk
sends.  The fourteen silent frames that fall inside the 300 ms hangover
window are buffered and immediately emitted as chunks as well, giving 19
sends before the single end-of-utterance signal. -/
theorem scenarioB_not_five_chunks :
    (runGate cfgB initGate scenarioBTrace).out.length ≠ 5
    ∧ (runGate cfgB initGate scenarioBTrace).ends = 1 := by
  decide

set_option maxRecDepth 100000 in
/-- Amended claim C5: Scenario B produces exactly 19 chunk sends (5
during speech, 14 during the hangover window) and then exactly one
end-of-utterance signal, ending Silent with an empty buffer. -/
theorem scenarioB_nineteen_chunks :
    (runGate cfgB initGate scenarioBTrace).out.length = 19
    ∧ (runGate cfgB initGate scenarioBTrace).ends = 1
    ∧ (runGate cfgB initGate scenarioBTrace).st.talking = false
    ∧ (runGate cfgB initGate scenarioBTrace).st.buf = [] := by
  decide

/-! ## ElevenLabs link supervisor (server.js)

Module-level state of server.js: shouldStayInVC, connection, ws, wantWs,
plus a log of teardown side effects and of messages passed to ws.send.
The reconnect setTimeout scheduled in the ws close handler is modelled as
a pending-retry flag consumed when the timer fires.
-/

/-- Phase of a live WebSocket object: freshly constructed (CONNECTING)
or after the open event (OPEN, the readyState that permits send). -/
inductive WsPhase where
  | connecting
  | opened
deriving DecidableEq

/-- Messages passed to ws.send by the mic-capture path. -/
inductive OutMsg where
  | userAudioChunk (bytes : List ℤ)
  | userAudioEnd
deriving DecidableEq

/-- Teardown side effects observed during leave/stop. -/
inductive TdEvent where
  | connDestroyed
  | wsClosed
deriving DecidableEq

/-- The module-level mutable state of server.js relevant to the link
supervisor: shouldStayInVC, connection (non-null?), ws (non-null, with
its readyState phase), wantWs, whether a reconnect setTimeout is pending,
how many WebSocket objects were constructed, the successful ws.send log,
and the teardown-event log. -/
structure SrvState where
  shouldStayInVC : Bool
  connection : Bool
  ws : Option WsPhase
  wantWs : Bool
  retryScheduled : Bool
  connectAttempts : ℕ
  sent : List OutMsg
  teardown : List TdEvent
deriving DecidableEq

/-- Process start: every global is null/false. -/
def initialSrv : SrvState :=
  ⟨false, false, none, false, false, 0, [], []⟩

/-- stopEleven (server.js lines 338-341): wantWs = false, then close and
null out ws when present. -/
def stopEleven (s : SrvState) : SrvState :=
  let s1 := { s with wantWs := false }
  match s1.ws with
  | some _ => { s1 with ws := none, teardown := s1.teardown ++ [TdEvent.wsClosed] }
  | none => s1

/-- leaveVoice (server.js lines 184-188): shouldStayInVC = false, destroy
and null out the voice connection when present, then stopEleven. -/
def leaveVoice (s : SrvState) : SrvState :=
  let s1 := { s with shouldStayInVC := false }
  let s2 :=
    if s1.connection then
      { s1 with connection := false, teardown := s1.teardown ++ [TdEvent.connDestroyed] }
    else s1
  stopEleven s2

/-- connectElevenWS (server.js lines 350-358, ignoring the URL fetch):
a no-op when ws is non-null or wantWs is already set; otherwise set
wantWs and construct a new WebSocket (state CONNECTING). -/
def connectElevenWS (s : SrvState) : SrvState :=
  if s.ws.isSome ∨ s.wantWs then s
  else
    { s with wantWs := true, ws := some WsPhase.connecting,
             connectAttempts := s.connectAttempts + 1 }

/-- The ws open event: the socket reaches readyState OPEN. -/
def wsOpenEvent (s : SrvState) : SrvState :=
  match s.ws with
  | some WsPhase.connecting => { s with ws := some WsPhase.opened }
  | _ => s

/-- The ws close handler (server.js lines 386-393): null out ws and, when
wantWs and connection still hold, schedule the 1500 ms reconnect
setTimeout. -/
def wsCloseEvent (s : SrvState) : SrvState :=
  let s1 := { s with ws := none }
  if s1.wantWs ∧ s1.connection then { s1 with retryScheduled := true } else s1

/-- The scheduled reconnect setTimeout fires: it calls connectElevenWS
unconditionally. -/
def retryFires (s : SrvState) : SrvState :=
  connectElevenWS { s with retryScheduled := false }

/-- sendUserAudioChunk (server.js lines 398-402): guarded on
ws and ws.readyState === WebSocket.OPEN. -/
def sendUserAudioChunk (s : SrvState) (bytes : List ℤ) : SrvState :=
  if s.ws = some WsPhase.opened then
    { s with sent := s.sent ++ [OutMsg.userAudioChunk bytes] }
  else s

/-- sendUserAudioEnd (server.js lines 403-407): same guard. -/
def sendUserAudioEnd (s : SrvState) : SrvState :=
  if s.ws = some WsPhase.opened then
    { s with sent := s.sent ++ [OutMsg.userAudioEnd] }
  else s

/-- Claim C7: with the socket absent or not yet OPEN, sendUserAudioChunk
and sendUserAudioEnd change nothing at all — nothing is sent and nothing
is queued; the captured audio is dropped. -/
theorem send_noop_when_not_open (s : SrvState) (bytes : List ℤ)
    (h : ¬ s.ws = some WsPhase.opened) :
    sendUserAudioChunk s bytes = s ∧ sendUserAudioEnd s = s := by
  constructor
  · simp [sendUserAudioChunk, h]
  · simp [sendUserAudioEnd, h]

/-- Witness for send_noop_when_not_open at the freshly started state. -/
theorem send_noop_when_not_open_witness :
    ¬ initialSrv.ws = some WsPhase.opened
    ∧ (sendUserAudioChunk initialSrv [1, 2] = initialSrv
        ∧ sendUserAudioEnd initialSrv = initialSrv) :=
  ⟨by decide, send_noop_when_not_open initialSrv [1, 2] (by decide)⟩

/-- Result state of the Scenario D event sequence: join (connection
present, wanting to stay), connect, socket opens, unintentional socket
close (schedules the retry), explicit leave before the retry fires, then
the retry timer fires. -/
def scenarioDFinal : SrvState :=
  retryFires (leaveVoice (wsCloseEvent (wsOpenEvent (connectElevenWS
    { initialSrv with shouldStayInVC := true, connection := true }))))

/-- Claim C4 is violated by the code: after the unintentional close the
retry is scheduled and the explicit leave clears the desired-connected
flag (wantWs), yet the fired retry still constructs a second WebSocket
and re-enters the Connecting state, because the guard of connectElevenWS
(return when ws or wantWs) only suppresses the call while wantWs is still
true.  Evaluated on the concrete Scenario D trace. -/
theorem scenarioD_reconnect_after_leave :
    (wsCloseEvent (wsOpenEvent (connectElevenWS
        { initialSrv with shouldStayInVC := true, connection := true }))).retryScheduled
      = true
    ∧ (leaveVoice (wsCloseEvent (wsOpenEvent (connectElevenWS
        { initialSrv with shouldStayInVC := true, connection := true })))).wantWs = false
    ∧ scenarioDFinal.ws = some WsPhase.connecting
    ∧ scenarioDFinal.connectAttempts = 2 := by
  decide

/-! ## Guarded receive pipeline (deploy-commands.js, second document)

cleanupReceivePipeline (lines 318-324 of the concatenated file): destroy
each present stage handle inside try/catch, then reset the recv record to
all-null fields.
-/

/-- A destroy side effect on one of the receive-pipeline stages. -/
inductive RecvEvent where
  | opusDestroyed
  | decoderDestroyed
  | downsamplerDestroyed
deriving DecidableEq

/-- The recv record: target user id and presence of the three stage
handles, plus the log of destroy calls that were actually issued. -/
structure RecvState where
  userId : Option ℕ
  opus : Bool
  decoder : Bool
  downsampler : Bool
  destroyed : List RecvEvent
deriving DecidableEq

/-- cleanupReceivePipeline: optional-chained removeAllListeners/destroy
on each present handle, then recv = all null. -/
def cleanupReceivePipeline (r : RecvState) : RecvState :=
  { userId := none, opus := false, decoder := false, downsampler := false,
    destroyed :=
      r.destroyed
        ++ (if r.opus then [RecvEvent.opusDestroyed] else [])
        ++ (if r.decoder then [RecvEvent.decoderDestroyed] else [])
        ++ (if r.downsampler then [RecvEvent.downsamplerDestroyed] else []) }

/-- Claim C8: leaveVoice and cleanupReceivePipeline are idempotent — a
second call on an already-stopped session performs no further teardown
(the event logs do not grow) and leaves the state exactly as it was. -/
theorem teardown_idempotent (s : SrvState) (r : RecvState) :
    leaveVoice (leaveVoice s) = leaveVoice s
    ∧ cleanupReceivePipeline (cleanupReceivePipeline r) = cleanupReceivePipeline r := by
  constructor
  · obtain ⟨stay, conn, ws, want, retry, att, sent, td⟩ := s
    cases conn <;> cases ws <;> simp [leaveVoice, stopEleven]
  · simp [cleanupReceivePipeline]

/-! ## Playback pipelines (claim C2)

Two variants appear in the source.  The join-built variant
(ensurePlaybackPipelineOnce, fourth document of deploy-commands.js,
lines 893-911) guards on its handles and builds the transcoder and the
audio player at most once.  The utterance-buffered variant
(playPcm16kBufferOnce, second document, lines 144-172) constructs a fresh
ffmpeg resampler and a fresh Opus encoder for every non-empty utterance
buffer, reusing only the audio player.
-/

/-- Module state of the join-built playback variant: the audioPlayer and
oggOpus handles plus counters of constructions performed. -/
structure PlaybackOnceState where
  audioPlayer : Bool
  oggOpus : Bool
  transcodersBuilt : ℕ
  playersBuilt : ℕ
  resourcesPlayed : ℕ
deriving DecidableEq

/-- ensurePlaybackPipelineOnce: early return when both handles exist;
otherwise build the missing transcoder and/or player, then play a fresh
audio resource on the player. -/
def ensurePlaybackPipelineOnce (s : PlaybackOnceState) : PlaybackOnceState :=
  if s.audioPlayer = true ∧ s.oggOpus = true then s
  else
    let s1 :=
      if s.oggOpus = false then
        { s with oggOpus := true, transcodersBuilt := s.transcodersBuilt + 1 }
      else s
    let s2 :=
      if s1.audioPlayer = false then
        { s1 with audioPlayer := true, playersBuilt := s1.playersBuilt + 1 }
      else s1
    { s2 with resourcesPlayed := s2.resourcesPlayed + 1 }

/-- Module state of the utterance-buffered playback variant:
the audioPlayer handle, a count of transform stages (resampler and
encoder) ever constructed, a count of players ever constructed, and a
count of audio resources played. -/
structure BufferedPlaybackState where
  audioPlayer : Bool
  stagesBuilt : ℕ
  playersBuilt : ℕ
  resourcesPlayed : ℕ
deriving DecidableEq

/-- playPcm16kBufferOnce: return early on an empty buffer; otherwise
construct a fresh resampler and a fresh Opus encoder (two new transform
stages), create the player only if absent, and play a new resource. -/
def playPcm16kBufferOnce (s : BufferedPlaybackState) (buf : List ℤ) :
    BufferedPlaybackState :=
  if buf = [] then s
  else
    let s1 := { s with stagesBuilt := s.stagesBuilt + 2 }
    let s2 :=
      if s1.audioPlayer = false then
        { s1 with audioPlayer := true, playersBuilt := s1.playersBuilt + 1 }
      else s1
    { s2 with resourcesPlayed := s2.resourcesPlayed + 1 }

/-- Fresh playback state at process start. -/
def initBuffered : BufferedPlaybackState := ⟨false, 0, 0, 0⟩

/-- Counterexample to claim C2: in the utterance-buffered variant each of
two consecutive non-empty utterances constructs two fresh transform
stages (4 total after the second), so utterances are not played by
writing into a once-built pipeline. -/
theorem playback_rebuilt_per_utterance :
    (playPcm16kBufferOnce initBuffered [1]).stagesBuilt = 2
    ∧ (playPcm16kBufferOnce (playPcm16kBufferOnce initBuffered [1]) [2]).stagesBuilt = 4
    ∧ ¬ (playPcm16kBufferOnce (playPcm16kBufferOnce initBuffered [1]) [2]).stagesBuilt ≤ 2 := by
  decide

/-- Amended claim C2: the join-built variant is construct-at-most-once —
a repeat call of ensurePlaybackPipelineOnce is a no-op — and even the
utterance-buffered variant constructs the audio-player sink at most once;
but that variant constructs two fresh transform stages for every
non-empty utterance instead of writing into an existing pipeline. -/
theorem playback_once_amended :
    (∀ s : PlaybackOnceState,
        ensurePlaybackPipelineOnce (ensurePlaybackPipelineOnce s)
          = ensurePlaybackPipelineOnce s)
    ∧ (∀ (s : BufferedPlaybackState) (buf : List ℤ),
        s.audioPlayer = true →
          (playPcm16kBufferOnce s buf).playersBuilt = s.playersBuilt)
    ∧ (∀ (s : BufferedPlaybackState) (buf : List ℤ),
        buf ≠ [] → (playPcm16kBufferOnce s buf).stagesBuilt = s.stagesBuilt + 2) := by
  refine ⟨?_, ?_, ?_⟩
  · intro s
    obtain ⟨ap, og, a, b, c⟩ := s
    cases ap <;> cases og <;> simp [ensurePlaybackPipelineOnce]
  · intro s buf hp
    obtain ⟨ap, a, b, c⟩ := s
    simp only at hp
    subst hp
    by_cases hb : buf = [] <;> simp [playPcm16kBufferOnce, hb]
  · intro s buf hb
    simp only [playPcm16kBufferOnce, if_neg hb]
    by_cases hp : s.audioPlayer = false <;> simp [hp]

/-- Witness for playback_once_amended with a live player and a one-sample
utterance. -/
theorem playback_once_amended_witness :
    (ensurePlaybackPipelineOnce (ensurePlaybackPipelineOnce ⟨false, false, 0, 0, 0⟩)
        = ensurePlaybackPipelineOnce ⟨false, false, 0, 0, 0⟩)
    ∧ ((⟨true, 2, 1, 1⟩ : BufferedPlaybackState).audioPlayer = true
        ∧ (playPcm16kBufferOnce ⟨true, 2, 1, 1⟩ [7]).playersBuilt
            = (⟨true, 2, 1, 1⟩ : BufferedPlaybackState).playersBuilt)
    ∧ (([7] : List ℤ) ≠ []
        ∧ (playPcm16kBufferOnce ⟨true, 2, 1, 1⟩ [7]).stagesBuilt
            = (⟨true, 2, 1, 1⟩ : BufferedPlaybackState).stagesBuilt + 2) :=
  ⟨playback_once_amended.1 ⟨false, false, 0, 0, 0⟩,
    ⟨rfl, playback_once_amended.2.1 ⟨true, 2, 1, 1⟩ [7] rfl⟩,
    ⟨by decide, playback_once_amended.2.2 ⟨true, 2, 1, 1⟩ [7] (by decide)⟩⟩

/-! ## Sequence-numbered reorder assembler (deploy-commands.js, third
document, lines 601-622)

pendingAudio is a Map from event_id to bytes; nextExpectedEventId starts
at 1.  The audio handler stores the fragment and then releases the
contiguous run starting at nextExpectedEventId into playbackPCM.write,
advancing the counter.  Maps are modelled as association lists with
replace-on-set.
-/

/-- Map.set: replace the binding of the key when present, otherwise
append a new binding. -/
def mapSet (m : List (ℕ × List ℤ)) (k : ℕ) (v : List ℤ) : List (ℕ × List ℤ) :=
  match m with
  | [] => [(k, v)]
  | (k', v') :: rest =>
    if k' = k then (k, v) :: rest else (k', v') :: mapSet rest k v

/-- Map.get as an association-list lookup. -/
def mapGet (m : List (ℕ × List ℤ)) (k : ℕ) : Option (List ℤ) :=
  m.lookup k

/-- Map.delete. -/
def mapErase (m : List (ℕ × List ℤ)) (k : ℕ) : List (ℕ × List ℤ) :=
  m.filter (fun p => p.1 ≠ k)

/-- State of the reorder assembler: nextExpectedEventId, the pendingAudio
map, and the ordered log of (event_id, bytes) released to
playbackPCM.write. -/
structure AsmState where
  nextExpected : ℕ
  pending : List (ℕ × List ℤ)
  released : List (ℕ × List ℤ)
deriving DecidableEq

/-- Initial assembler state: nextExpectedEventId = 1, empty map. -/
def initAsm : AsmState := ⟨1, [], []⟩

/-- Fuel-driven body of
while (pendingAudio.has(nextExpectedEventId)) release/advance;
each iteration erases one map entry, so pending.length fuel suffices. -/
def drainLoop : ℕ → AsmState → AsmState
  | 0, st => st
  | fuel + 1, st =>
    match mapGet st.pending st.nextExpected with
    | none => st
    | some chunk =>
      drainLoop fuel
        ⟨st.nextExpected + 1, mapErase st.pending st.nextExpected,
          st.released ++ [(st.nextExpected, chunk)]⟩

/-- The release loop of the audio handler, run to exhaustion. -/
def drainPending (st : AsmState) : AsmState :=
  drainLoop st.pending.length st

/-- The audio-message handler: store the fragment under its event_id,
then release the contiguous run starting at nextExpectedEventId. -/
def onAudioEvent (st : AsmState) (eventId : ℕ) (bytes : List ℤ) : AsmState :=
  drainPending { st with pending := mapSet st.pending eventId bytes }

/-- Feed a whole arrival sequence of (event_id, bytes) fragments from the
initial state. -/
def runAsm (evs : List (ℕ × List ℤ)) : AsmState :=
  evs.foldl (fun st e => onAudioEvent st e.1 e.2) initAsm

theorem mapSet_lookup_same (m : List (ℕ × List ℤ)) (k : ℕ) (v : List ℤ) :
    (mapSet m k v).lookup k = some v := by
  induction m with
  | nil => simp [mapSet, List.lookup]
  | cons p rest ih =>
    obtain ⟨k', v'⟩ := p
    by_cases h : k' = k
    · simp [mapSet, h, List.lookup]
    · simp only [mapSet, if_neg h, List.lookup]
      rw [beq_false_of_ne (fun he => h he.symm)]
      exact ih

theorem mapSet_lookup_ne (m : List (ℕ × List ℤ)) (k k' : ℕ) (v : List ℤ)
    (h : k' ≠ k) : (mapSet m k v).lookup k' = m.lookup k' := by
  induction m with
  | nil =>
    simp only [mapSet, List.lookup]
    rw [beq_false_of_ne h]
  | cons p rest ih =>
    obtain ⟨a, b⟩ := p
    by_cases ha : a = k
    · subst ha
      simp only [mapSet, if_pos rfl, List.lookup]
      rw [beq_false_of_ne h]
    · simp only [mapSet, if_neg ha, List.lookup]
      by_cases hk : k' = a
      · subst hk
        simp
      · rw [beq_false_of_ne hk]
        exact ih

theorem lookup_some_mem (m : List (ℕ × List ℤ)) (k : ℕ) (v : List ℤ)
    (h : m.lookup k = some v) : (k, v) ∈ m := by
  induction m with
  | nil => simp [List.lookup] at h
  | cons p rest ih =>
    obtain ⟨a, b⟩ := p
    simp only [List.lookup] at h
    by_cases hk : k = a
    · subst hk
      rw [beq_self_eq_true] at h
      simp only [Option.some.injEq] at h
      subst h
      simp
    · rw [beq_false_of_ne hk] at h
      exact List.mem_cons_of_mem _ (ih h)

theorem mapErase_length_lt (m : List (ℕ × List ℤ)) (k : ℕ) (v : List ℤ)
    (h : m.lookup k = some v) : (mapErase m k).length < m.length := by
  have hmem := lookup_some_mem m k v h
  unfold mapErase
  rw [List.length_filter_lt_length_iff_exists]
  exact ⟨(k, v), hmem, by simp⟩

/-- With no fragment ready at the counter, the release loop does
nothing. -/
theorem drainLoop_stop (fuel : ℕ) (st : AsmState)
    (h : mapGet st.pending st.nextExpected = none) :
    drainLoop fuel st = st := by
  cases fuel with
  | zero => rfl
  | succ n => simp [drainLoop, h]

/-- With enough fuel the release loop runs to exhaustion: afterwards no
fragment is pending at the new counter (the while-loop postcondition). -/
theorem drainLoop_saturated (fuel : ℕ) :
    ∀ st : AsmState, st.pending.length ≤ fuel →
      mapGet (drainLoop fuel st).pending (drainLoop fuel st).nextExpected = none := by
  induction fuel with
  | zero =>
    intro st hf
    have : st.pending = [] := List.length_eq_zero.1 (Nat.le_zero.1 hf)
    simp [drainLoop, mapGet, this, List.lookup]
  | succ n ih =>
    intro st hf
    cases hget : mapGet st.pending st.nextExpected with
    | none =>
      simp only [drainLoop, hget]
    | some chunk =>
      simp only [drainLoop, hget]
      apply ih
      have := mapErase_length_lt st.pending st.nextExpected chunk hget
      simp only at this ⊢
      omega

theorem drainPending_saturated (st : AsmState) :
    mapGet (drainPending st).pending (drainPending st).nextExpected = none :=
  drainLoop_saturated st.pending.length st (Nat.le_refl _)

/-- The release loop preserves the ordering invariant: released ids are
strictly increasing and all lie below the counter. -/
theorem drainLoop_mono (fuel : ℕ) :
    ∀ st : AsmState,
      List.Pairwise (· < ·) (st.released.map Prod.fst) →
      (∀ q ∈ st.released, q.1 < st.nextExpected) →
      List.Pairwise (· < ·) ((drainLoop fuel st).released.map Prod.fst)
      ∧ (∀ q ∈ (drainLoop fuel st).released, q.1 < (drainLoop fuel st).nextExpected) := by
  induction fuel with
  | zero => exact fun st hpw hub => ⟨hpw, hub⟩
  | succ n ih =>
    intro st hpw hub
    cases hget : mapGet st.pending st.nextExpected with
    | none =>
      simp only [drainLoop, hget]
      exact ⟨hpw, hub⟩
    | some chunk =>
      simp only [drainLoop, hget]
      apply ih
      · simp only [List.map_append, List.map_cons, List.map_nil]
        rw [List.pairwise_append]
        refine ⟨hpw, by simp, ?_⟩
        intro a ha b hb
        simp only [List.mem_singleton] at hb
        subst hb
        obtain ⟨q, hq, hqa⟩ := List.mem_map.1 ha
        subst hqa
        exact hub q hq
      · intro q hq
        simp only [List.mem_append, List.mem_singleton] at hq
        rcases hq with hq | hq
        · have := hub q hq
          simp only
          omega
        · subst hq
          simp only
          omega

/-- Every state reached by runAsm has nothing pending at the counter. -/
theorem runAsm_saturated (evs : List (ℕ × List ℤ)) :
    mapGet (runAsm evs).pending (runAsm evs).nextExpected = none := by
  unfold runAsm
  rcases hrev : evs.reverse with _ | ⟨e, rest⟩
  · have : evs = [] := by
      have := congrArg List.reverse hrev
      simpa using this
    subst this
    simp [initAsm, mapGet, List.lookup]
  · have : evs = rest.reverse ++ [e] := by
      have := congrArg List.reverse hrev
      simpa using this
    subst this
    rw [List.foldl_append]
    exact drainPending_saturated _

/-- The ordering invariant holds for every run from the initial state. -/
theorem runAsm_mono (evs : List (ℕ × List ℤ)) :
    List.Pairwise (· < ·) ((runAsm evs).released.map Prod.fst)
    ∧ (∀ q ∈ (runAsm evs).released, q.1 < (runAsm evs).nextExpected) := by
  unfold runAsm
  induction evs using List.reverseRecOn with
  | nil => simp [initAsm]
  | append_singleton rest e ih =>
    rw [List.foldl_append]
    exact drainLoop_mono _ _ ih.1 ih.2

/-- In a state with nothing pending at the counter (true of every
reachable state, by runAsm_saturated), a fragment arriving with an
event_id above the counter is held: nothing is released and the fragment
sits in the pending map. -/
theorem asm_holds_future_fragment (st : AsmState) (id : ℕ) (b : List ℤ)
    (hsat : mapGet st.pending st.nextExpected = none)
    (hgt : st.nextExpected < id) :
    (onAudioEvent st id b).released = st.released
    ∧ (onAudioEvent st id b).nextExpected = st.nextExpected
    ∧ mapGet (onAudioEvent st id b).pending id = some b := by
  have hne : st.nextExpected ≠ id := by omega
  have hget : mapGet (mapSet st.pending id b) st.nextExpected = none := by
    unfold mapGet
    rw [mapSet_lookup_ne st.pending id st.nextExpected b hne]
    exact hsat
  have hstop : drainPending { st with pending := mapSet st.pending id b }
      = { st with pending := mapSet st.pending id b } :=
    drainLoop_stop _ _ hget
  unfold onAudioEvent
  rw [hstop]
  exact ⟨rfl, rfl, mapSet_lookup_same st.pending id b⟩

/-- Claim C3: fragments arriving as [2, 1, 3] are released in ascending
order [1, 2, 3]; release positions over any arrival sequence are
strictly increasing, so no fragment is ever released into an
already-released position; and a fragment beyond the counter is held in
the pending store without releasing anything. -/
theorem assembler_reorders_in_sequence :
    (∀ b1 b2 b3 : List ℤ,
      (runAsm [(2, b2), (1, b1), (3, b3)]).released
        = [(1, b1), (2, b2), (3, b3)])
    ∧ (∀ evs : List (ℕ × List ℤ),
        List.Pairwise (· < ·) ((runAsm evs).released.map Prod.fst))
    ∧ (∀ (evs : List (ℕ × List ℤ)) (id : ℕ) (b : List ℤ),
        (runAsm evs).nextExpected < id →
          (onAudioEvent (runAsm evs) id b).released = (runAsm evs).released
          ∧ mapGet (onAudioEvent (runAsm evs) id b).pending id = some b) := by
  refine ⟨?_, ?_, ?_⟩
  · intro b1 b2 b3
    simp [runAsm, onAudioEvent, drainPending, drainLoop, initAsm, mapSet, mapGet,
      mapErase, List.lookup, List.filter]
  · intro evs
    exact (runAsm_mono evs).1
  · intro evs id b hgt
    have h := asm_holds_future_fragment (runAsm evs) id b (runAsm_saturated evs) hgt
    exact ⟨h.1, h.2.2⟩

/-- Witness for assembler_reorders_in_sequence: a fragment with event_id
5 arriving first is held without any release. -/
theorem assembler_reorders_witness :
    (runAsm []).nextExpected < 5
    ∧ ((onAudioEvent (runAsm []) 5 [9]).released = (runAsm []).released
        ∧ mapGet (onAudioEvent (runAsm []) 5 [9]).pending 5 = some [9]) :=
  ⟨by decide, assembler_reorders_in_sequence.2.2 [] 5 [9] (by decide)⟩

/-! ## Idle-flush assembler (deploy-commands.js, second document)

currentUtteranceChunks collects base64-decoded audio fragments; each
arrival re-arms a FLUSH_IDLE_MS setTimeout on flushUtterance.  When the
timer fires with a non-empty buffer, the concatenation is played once and
the buffer resets (flushUtterance, lines 207-214; the audio and
audio.delta handlers, lines 255-274).
-/

/-- The idle gap after which a buffered utterance auto-flushes. -/
def FLUSH_IDLE_MS : ℤ := 600

/-- State of the idle-flush assembler: currentUtteranceChunks, the armed
flushTimer deadline (none when no timer is pending), and the log of
buffers handed to playback, one entry per flush. -/
structure FlushState where
  chunks : List (List ℤ)
  flushDeadline : Option ℤ
  played : List (List ℤ)
deriving DecidableEq

/-- State before the first fragment. -/
def initFlush : FlushState := ⟨[], none, []⟩

/-- flushUtterance: return if the buffer is empty; otherwise concatenate
all chunks, clear the buffer and the timer, and play the result. -/
def flushUtterance (s : FlushState) : FlushState :=
  if s.chunks = [] then s
  else ⟨[], none, s.played ++ [s.chunks.flatten]⟩

/-- The audio / audio.delta handler for one decoded fragment at time
now: push the fragment and re-arm the idle timer. -/
def onAudioDelta (s : FlushState) (b : List ℤ) (now : ℤ) : FlushState :=
  ⟨s.chunks ++ [b], some (now + FLUSH_IDLE_MS), s.played⟩

/-- The armed idle timer fires (the runtime only lets it fire if no later
fragment re-armed it): the timer is consumed and flushUtterance runs. -/
def flushTimerFires (s : FlushState) : FlushState :=
  flushUtterance { s with flushDeadline := none }

/-- Feed a sequence of (fragment, arrival-time) pairs. -/
def runDeltas (s : FlushState) (ds : List (List ℤ × ℤ)) : FlushState :=
  ds.foldl (fun s d => onAudioDelta s d.1 d.2) s

theorem runDeltas_state (ds : List (List ℤ × ℤ)) :
    ∀ s : FlushState,
      (runDeltas s ds).chunks = s.chunks ++ ds.map Prod.fst
      ∧ (runDeltas s ds).played = s.played := by
  induction ds with
  | nil => intro s; simp [runDeltas]
  | cons d rest ih =>
    intro s
    obtain ⟨b, t⟩ := d
    have h := ih (onAudioDelta s b t)
    unfold runDeltas at h ⊢
    simp only [List.foldl_cons]
    refine ⟨?_, h.2⟩
    rw [h.1]
    simp [onAudioDelta]

/-- Claim C6: fragments buffered with no end marker, followed by the idle
timer firing (an idle gap of FLUSH_IDLE_MS with no further fragment),
produce exactly one playback call containing the concatenation of all
fragments in arrival order, and the buffer resets. -/
theorem idle_flush_once (ds : List (List ℤ × ℤ)) (hne : ds ≠ []) :
    (runDeltas initFlush ds).played = []
    ∧ flushTimerFires (runDeltas initFlush ds)
        = ⟨[], none, [(ds.map Prod.fst).flatten]⟩ := by
  have h := runDeltas_state ds initFlush
  have hchunks : (runDeltas initFlush ds).chunks = ds.map Prod.fst := by
    rw [h.1]
    simp [initFlush]
  have hplayed : (runDeltas initFlush ds).played = [] := h.2
  refine ⟨hplayed, ?_⟩
  unfold flushTimerFires flushUtterance
  have hnonempty : ¬ ({ runDeltas initFlush ds with flushDeadline := none } : FlushState).chunks = [] := by
    simp only [hchunks]
    simp [hne]
  rw [if_neg hnonempty]
  simp [hchunks, hplayed]

/-- Witness for idle_flush_once: two fragments then the idle timer. -/
theorem idle_flush_once_witness :
    ([(([1, 2] : List ℤ), (0 : ℤ)), (([3] : List ℤ), (100 : ℤ))]
        : List (List ℤ × ℤ)) ≠ []
    ∧ ((runDeltas initFlush [(([1, 2] : List ℤ), (0 : ℤ)), (([3] : List ℤ), (100 : ℤ))]).played = []
        ∧ flushTimerFires
            (runDeltas initFlush [(([1, 2] : List ℤ), (0 : ℤ)), (([3] : List ℤ), (100 : ℤ))])
          = ⟨[], none,
              [([(([1, 2] : List ℤ), (0 : ℤ)), (([3] : List ℤ), (100 : ℤ))].map
                  Prod.fst).flatten]⟩) :=
  ⟨by decide,
    idle_flush_once [(([1, 2] : List ℤ), (0 : ℤ)), (([3] : List ℤ), (100 : ℤ))] (by decide)⟩

end DiscordVoice
